import Mathlib

/-!
Verification of the society/civilization optimization engine
(`src/cpp/society_civ/Civilization.h`, `Individual.h`, `main.cpp`).

Modelling conventions:
* C++ `double` is modelled as an element of a linear ordered field.  The
  generic core (dominance, ranking, leader selection, the information
  acquisition operator) is stated over an arbitrary `LinearOrderedField`
  so that concrete instances can be evaluated over `ℚ`; the full pipeline
  uses `ℝ` because `calculate_distance` takes a square root.
* The single `std::mt19937` stream owned by a `Civilization` is modelled
  as an explicit stream `u : Nat → α` of unit draws together with a
  cursor position; each `uniform_real_distribution(a,b)(rng)` call
  consumes one draw `u k` and yields `a + u k * (b - a)`, and each
  `uniform_int_distribution(0,m-1)(rng)` call consumes one draw and
  yields `⌊u k * m⌋`.  A well-formed stream has every draw in `[0,1)`.
* `while (true)` loops are written with explicit fuel; the fuel bounds
  used are proved sufficient where a claim depends on termination.
-/

namespace SocioCiv

/-! ## Generic core (parametric in the scalar field) -/

section Core

variable {α : Type} [LinearOrderedField α]

/-- Loop body of `Civilization::dominates` (Civilization.h lines 164-174):
walks the two violation vectors in parallel carrying the
`strictly_better` flag; an `a`-component greater than the corresponding
`b`-component clears `no_worse` and breaks (returns `false`).  The C++
loop runs over `a`'s length; it is only ever invoked on vectors of equal
length (both produced by the same constraint functor). -/
def dominatesGo : List α → List α → Bool → Bool
  | [], _, sb => sb
  | _ :: _, [], sb => sb
  | x :: xs, y :: ys, sb =>
    if y < x then false
    else dominatesGo xs ys (sb || decide (x < y))

/-- Embeds `Civilization::dominates` (lines 164-174): `a` dominates `b` iff `a`
is no worse in every violation component and strictly better in at
least one. -/
def dominates (a b : List α) : Bool :=
  dominatesGo a b false

/-- The inner double loop of `Civilization::rank_society` (lines
182-189): whether some other pool member dominates `i`. -/
def dominatedIn (cv : Nat → List α) (pool : List Nat) (i : Nat) : Bool :=
  pool.any (fun j => (j != i) && dominates (cv j) (cv i))

/-- The `while (!current_pool.empty())` front-peeling loop of
`Civilization::rank_society` (lines 177-196), with explicit fuel and the
running `current_rank`.  Each pass assigns the current rank to the
non-dominated members (in pool order) and recurses on the dominated
remainder.  The result is the list of `(index, rank)` assignments the
C++ code writes into `population[i].rank`. -/
def rankLoop (cv : Nat → List α) : Nat → Nat → List Nat → List (Nat × Nat)
  | 0, _, _ => []
  | fuel + 1, r, pool =>
    if pool.isEmpty then []
    else
      (pool.filter (fun i => ! dominatedIn cv pool i)).map (fun i => (i, r))
        ++ rankLoop cv fuel (r + 1) (pool.filter (fun i => dominatedIn cv pool i))

/-- Embeds `Civilization::rank_society` (lines 177-196) as the list of rank
assignments it performs.  Fuel `members.length` is sufficient whenever
dominance is acyclic on the pool (each pass then removes at least one
member), which holds for equal-length violation vectors. -/
def rankSociety (cv : Nat → List α) (members : List Nat) : List (Nat × Nat) :=
  rankLoop cv members.length 1 members

/-- The rank a pool member ends up with after `rank_society` runs
(`population[i].rank`); `0` (the `Individual` constructor default) if
the peeling never ranked `i`. -/
def rankOf (cv : Nat → List α) (members : List Nat) (i : Nat) : Nat :=
  match (rankSociety cv members).find? (fun p => p.1 == i) with
  | some p => p.2
  | none => 0

/-- The leader-selection block shared verbatim by
`Civilization::identify_leaders` (lines 216-236) and
`Civilization::identify_super_leaders` (lines 344-368): collect the
rank-1 subset and the objective sum over the pool, then either keep all
of rank 1 (when it is at most half the pool) or filter it by
below-average objective, falling back to the first rank-1 member when
the filter empties the set. -/
def selectLeaders (obj : Nat → α) (rank : Nat → Nat) (members : List Nat) : List Nat :=
  let rank1 := members.filter (fun i => rank i == 1)
  let sumObj := (members.map obj).sum
  let avgObj : α := if 0 < members.length then sumObj / (members.length : α) else 0
  if ((members.length : α) * (1 / 2) < (rank1.length : α)) then
    let filtered := rank1.filter (fun i => decide (obj i ≤ avgObj))
    if filtered.isEmpty && ! rank1.isEmpty then [rank1.headI] else filtered
  else rank1

/-- The reference selection rule exactly as worded in the spec (§4.3):
`R1` the rank-1 subset, `avg` the mean objective over the whole pool; if
`|R1| ≤ 0.5 * |pool|` the leaders are `R1`, otherwise the members of
`R1` with objective at most `avg`, and if that set is empty, the single
first-encountered member of `R1`. -/
def leadersRule (obj : Nat → α) (rank : Nat → Nat) (members : List Nat) : List Nat :=
  let R1 := members.filter (fun i => rank i == 1)
  let avg := (members.map obj).sum / (members.length : α)
  if (R1.length : α) ≤ (members.length : α) * (1 / 2) then R1
  else
    let fs := R1.filter (fun i => decide (obj i ≤ avg))
    if fs = [] then R1.take 1 else fs

/-- A `std::uniform_real_distribution<double>(a, b)` sample, modelled as
the affine image of one unit draw. -/
def uniformIn (a b u : α) : α := a + u * (b - a)

/-- Embeds `Civilization::acquire_information` (lines 257-283): draw `r`; with
probability 1/4 sample in `[lb, min]` (collapsing to `lb` when
`min ≤ lb`), with probability 1/2 sample in `[min, max]` (collapsing to
`min` when `max ≤ min`), with probability 1/4 sample in `[max, ub]`
(collapsing to `ub` when `ub ≤ max`).  Returns the value and the stream
position after the 1 or 2 draws consumed. -/
def acquire_information (u : Nat → α) (k : Nat) (valInd valLeader lb ub : α) : α × Nat :=
  let r := u k
  let minV := min valInd valLeader
  let maxV := max valInd valLeader
  if r < 1 / 4 then
    if minV ≤ lb then (lb, k + 1)
    else (uniformIn lb minV (u (k + 1)), k + 2)
  else if r < 3 / 4 then
    if maxV ≤ minV then (minV, k + 1)
    else (uniformIn minV maxV (u (k + 1)), k + 2)
  else
    if ub ≤ maxV then (ub, k + 1)
    else (uniformIn maxV ub (u (k + 1)), k + 2)

/-- The selected region of `acquire_information` has a degenerate
(single-point or empty) interval: region 1 with `min ≤ lb`, region 2
with `max ≤ min`, or region 3 with `ub ≤ max`. -/
def degenerateDraw (u : Nat → α) (k : Nat) (valInd valLeader lb ub : α) : Prop :=
  (u k < 1 / 4 ∧ min valInd valLeader ≤ lb)
    ∨ (1 / 4 ≤ u k ∧ u k < 3 / 4 ∧ max valInd valLeader ≤ min valInd valLeader)
    ∨ (3 / 4 ≤ u k ∧ ub ≤ max valInd valLeader)

end Core

/-! ## Data model and the Civilization pipeline over `ℝ` -/

/-- Embeds `Individual` (Individual.h lines 8-28): design variables (the
C++ field `variables`, which is a reserved word here, so it is named
`vars`), violation vector, objective value, Pareto rank. -/
structure Ind where
  vars : List ℝ
  constraint_violations : List ℝ
  objective_value : ℝ
  rank : Nat

instance : Inhabited Ind :=
  ⟨⟨[], [], 0, 0⟩⟩

/-- Embeds `Individual::Individual(int)` (Individual.h lines 23-27): the
variables are value-initialized to `num_variables` zeros, the objective
to `0` and the rank to `0`. -/
def mkIndividual (n : Nat) : Ind :=
  ⟨List.replicate n 0, [], 0, 0⟩

/-- The configuration a `Civilization` is constructed with
(Civilization.h lines 49-62): sizes, bounds, the injected objective and
constraint functors, and the seeded random stream. -/
structure Config where
  m : Nat
  n : Nat
  lower_bounds : List ℝ
  upper_bounds : List ℝ
  objFn : List ℝ → ℝ
  conFn : List ℝ → List ℝ
  stream : Nat → ℝ

/-- The mutable state of a `Civilization`: population,
clustering/leadership vectors, the random-stream cursor, and the
benchmark problem's `evaluations` counter (incremented once per
`get_objective` call, Koziel_and_Michalewicz.h line 22 /
WeldedBeamDesign.h line 37). -/
structure CivState where
  population : List Ind
  hubs : List Nat
  assignments : List Nat
  society_leaders : List (List Nat)
  global_society : List Nat
  super_leaders : List Nat
  pos : Nat
  evals : Nat

/-- A well-formed unit-draw stream: every draw lies in `[0, 1)`. -/
def wfStream (u : Nat → ℝ) : Prop :=
  ∀ k, 0 ≤ u k ∧ u k < 1

/-- A `std::uniform_int_distribution<int>(0, m-1)` sample on the
stream. -/
noncomputable def intDraw (u : Nat → ℝ) (k m : Nat) : Nat :=
  (⌊u k * (m : ℝ)⌋).toNat

/-- The `Civilization` constructor (lines 49-62): stores the sizes,
bounds and functors verbatim and seeds the stream; the state starts
empty with the cursor at the stream's origin.  No validation of any
kind is performed. -/
def mkCivilization (m n : Nat) (lb ub : List ℝ) (objFn : List ℝ → ℝ)
    (conFn : List ℝ → List ℝ) (stream : Nat → ℝ) : Config × CivState :=
  (⟨m, n, lb, ub, objFn, conFn, stream⟩, ⟨[], [], [], [], [], [], 0, 0⟩)

/-- Embeds `Civilization::initialize` (lines 65-79): fill the population with
`m` individuals whose `j`-th variable is `lb[j] + r * (ub[j] - lb[j])`
for successive unit draws `r`, row-major. -/
noncomputable def initPopulation (cfg : Config) (s : CivState) : CivState :=
  { s with
    population := (List.range cfg.m).map (fun i =>
      { vars := (List.range cfg.n).map (fun j =>
          cfg.lower_bounds.getD j 0
            + cfg.stream (s.pos + i * cfg.n + j)
              * (cfg.upper_bounds.getD j 0 - cfg.lower_bounds.getD j 0)),
        constraint_violations := [],
        objective_value := 0,
        rank := 0 }),
    pos := s.pos + cfg.m * cfg.n }

/-- Embeds `Civilization::calculate_distance` (lines 82-89): Euclidean norm of
the componentwise difference over the `n` variables. -/
noncomputable def calculate_distance (n : Nat) (a b : List ℝ) : ℝ :=
  Real.sqrt (((List.range n).map (fun i =>
    (a.getD i 0 - b.getD i 0) * (a.getD i 0 - b.getD i 0))).sum)

/-- Distance between the variable vectors of population members `i` and
`j`. -/
noncomputable def distIdx (cfg : Config) (pop : List Ind) (i j : Nat) : ℝ :=
  calculate_distance cfg.n (pop.getD i default).vars (pop.getD j default).vars

/-- The `int best = -1; double max_d = -1.0; if (d > max_d)` argmax
scan used for the farthest individual (lines 102-107 and 129-135). -/
noncomputable def argmaxScan (f : Nat → ℝ) (m : Nat) : Int × ℝ :=
  (List.range m).foldl (fun acc i => if acc.2 < f i then ((i : Int), f i) else acc)
    ((-1 : Int), (-1 : ℝ))

/-- The uniformly random first hub (line 100): one
`uniform_int_distribution(0, m-1)` draw. -/
noncomputable def firstHub (cfg : Config) (s : CivState) : Nat :=
  intDraw cfg.stream s.pos cfg.m

/-- The second hub (lines 102-108): the first-encountered individual
farthest from the first hub. -/
noncomputable def secondHub (cfg : Config) (s : CivState) : Nat :=
  (argmaxScan (fun i => distIdx cfg s.population i (firstHub cfg s)) cfg.m).1.toNat

/-- The hub seeding and initial two-hub assignment of
`Civilization::cluster_population` (lines 95-115): every individual is
assigned to the nearer of the two seed hubs (`d1 ≤ d2` → hub 0).  The
`-1` sentinel written by `assignments.assign(m, -1)` is overwritten for
every index before the loop starts. -/
noncomputable def clusterInit (cfg : Config) (s : CivState) : CivState :=
  { s with
    hubs := [firstHub cfg s, secondHub cfg s],
    assignments := (List.range cfg.m).map (fun i =>
      if distIdx cfg s.population i (firstHub cfg s)
          ≤ distIdx cfg s.population i (secondHub cfg s) then 0 else 1),
    pos := s.pos + 1 }

/-- Sum of the pairwise hub distances (the double loop at lines
121-126). -/
noncomputable def totalHubDist (cfg : Config) (pop : List Ind) : List Nat → ℝ
  | [] => 0
  | h :: t => (t.map (fun h2 => distIdx cfg pop h h2)).sum + totalHubDist cfg pop t

/-- The threshold `D` of the clustering loop (lines 119-127): half the
average pairwise hub distance (the C++ `pairs` counter equals
`len * (len - 1) / 2`), or `0` when there are no pairs. -/
noncomputable def thresholdD (cfg : Config) (pop : List Ind) (hubs : List Nat) : ℝ :=
  if 0 < hubs.length * (hubs.length - 1) / 2
  then (totalHubDist cfg pop hubs / ((hubs.length * (hubs.length - 1) / 2 : Nat) : ℝ)) / 2
  else 0

/-- The farthest-from-assigned-hub scan of the clustering loop (lines
129-135). -/
noncomputable def farthest (cfg : Config) (pop : List Ind) (hubs asg : List Nat) : Int × ℝ :=
  argmaxScan (fun i => distIdx cfg pop i (hubs.getD (asg.getD i 0) 0)) cfg.m

/-- The reassignment pass after promoting the farthest individual
(lines 142-147): an individual moves to the new hub exactly when it is
strictly closer to it than to its current hub; the new society id is
the old `hubs.size()` (that is, `hubs.size() - 1` after the push). -/
noncomputable def reassignAll (cfg : Config) (pop : List Ind) (hubs asg : List Nat)
    (fi : Nat) : List Nat :=
  (List.range cfg.m).map (fun i =>
    if distIdx cfg pop i fi < distIdx cfg pop i (hubs.getD (asg.getD i 0) 0)
    then hubs.length else asg.getD i 0)

/-- The promote-farthest-hub loop of `cluster_population` (lines
118-148), with explicit fuel: break when `max_d ≤ D`, otherwise promote
the farthest individual to a new hub and reassign.  The Boolean records
whether the break was reached within the fuel; `clusterLoop_converges`
shows fuel `m` always suffices, so the C++ unbounded loop is faithfully
represented. -/
noncomputable def clusterLoop (cfg : Config) (pop : List Ind) :
    Nat → List Nat → List Nat → List Nat × List Nat × Bool
  | 0, hubs, asg => (hubs, asg, false)
  | fuel + 1, hubs, asg =>
    if (farthest cfg pop hubs asg).2 ≤ thresholdD cfg pop hubs then (hubs, asg, true)
    else
      clusterLoop cfg pop fuel (hubs ++ [(farthest cfg pop hubs asg).1.toNat])
        (reassignAll cfg pop hubs asg (farthest cfg pop hubs asg).1.toNat)

/-- Embeds `Civilization::cluster_population` (lines 92-151): return on an
empty population, otherwise seed the hubs, assign everyone, and run the
promote-farthest loop. -/
noncomputable def cluster_population (cfg : Config) (s : CivState) : CivState :=
  if s.population.isEmpty then s
  else
    { clusterInit cfg s with
      hubs := (clusterLoop cfg (clusterInit cfg s).population cfg.m
        (clusterInit cfg s).hubs (clusterInit cfg s).assignments).1,
      assignments := (clusterLoop cfg (clusterInit cfg s).population cfg.m
        (clusterInit cfg s).hubs (clusterInit cfg s).assignments).2.1 }

/-- Evaluation of one individual (lines 157-160): apply the injected
objective and constraint functors to its variables. -/
def evalInd (cfg : Config) (ind : Ind) : Ind :=
  { ind with
    objective_value := cfg.objFn ind.vars,
    constraint_violations := cfg.conFn ind.vars }

/-- Embeds `Civilization::evaluate_population` (lines 156-161); the benchmark
problem's counter grows by one objective invocation per individual. -/
def evaluate_population (cfg : Config) (s : CivState) : CivState :=
  { s with
    population := s.population.map (evalInd cfg),
    evals := s.evals + s.population.length }

/-- The violation vectors the ranking reads
(`population[j].constraint_violations`). -/
def cvOf (pop : List Ind) : Nat → List ℝ :=
  fun i => (pop.getD i default).constraint_violations

/-- Write the `(index, rank)` assignments produced by the peeling into
the population (the in-place `population[i].rank = current_rank`
writes of lines 190). -/
def applyRanks (pairs : List (Nat × Nat)) (pop : List Ind) : List Ind :=
  pairs.foldl (fun p ir => p.set ir.1 { p.getD ir.1 default with rank := ir.2 }) pop

/-- Embeds `Civilization::rank_society` (lines 177-196) acting on the
population state. -/
noncomputable def rank_society (pop : List Ind) (members : List Nat) : List Ind :=
  applyRanks (rankSociety (cvOf pop) members) pop

/-- The society membership lists built at lines 203-205:
`societies[s]` collects, in index order, the individuals assigned to
society `s`. -/
def societiesOf (m numSocieties : Nat) (asg : List Nat) : List (List Nat) :=
  (List.range numSocieties).map (fun soc =>
    (List.range m).filter (fun i => asg.getD i 0 == soc))

/-- The per-society loop of `identify_leaders` (lines 210-237): for
each non-empty society, rank it (mutating the population's ranks) and
apply the shared selection rule; an empty society is skipped, keeping
an empty leader list. -/
noncomputable def leadersFold (socs : List (List Nat)) (pop : List Ind) :
    List Ind × List (List Nat) :=
  socs.foldl (fun (acc : List Ind × List (List Nat)) members =>
    if members.isEmpty then (acc.1, acc.2 ++ [[]])
    else
      (rank_society acc.1 members, acc.2
        ++ [selectLeaders
            (fun i => ((rank_society acc.1 members).getD i default).objective_value)
            (fun i => ((rank_society acc.1 members).getD i default).rank) members]))
    (pop, [])

/-- Embeds `Civilization::identify_leaders` (lines 199-239): evaluate the
whole population, split it into societies, and run the per-society
rank-and-select loop. -/
noncomputable def identify_leaders (cfg : Config) (s : CivState) : CivState :=
  { evaluate_population cfg s with
    population := (leadersFold
      (societiesOf cfg.m (evaluate_population cfg s).hubs.length
        (evaluate_population cfg s).assignments)
      (evaluate_population cfg s).population).1,
    society_leaders := (leadersFold
      (societiesOf cfg.m (evaluate_population cfg s).hubs.length
        (evaluate_population cfg s).assignments)
      (evaluate_population cfg s).population).2 }

/-- Embeds `Civilization::is_leader` (lines 244-253).  (The `-1` sentinel
check of line 245 has no counterpart: assignments are naturals here and
the method is only called after clustering assigned every index.) -/
def is_leader (s : CivState) (i : Nat) : Bool :=
  if s.society_leaders.length ≤ s.assignments.getD i 0 then false
  else (s.society_leaders.getD (s.assignments.getD i 0) []).contains i

/-- The `min_dist = std::numeric_limits<double>::max()` nearest scan
(lines 295-304 and 436-445).  The first candidate always beats the
sentinel, so the accumulator starts as `none`. -/
noncomputable def nearestScan (f : Nat → ℝ) (cands : List Nat) : Int :=
  (cands.foldl (fun (acc : Int × Option ℝ) (c : Nat) =>
    match acc.2 with
    | none => (Int.ofNat c, some (f c))
    | some d => if f c < d then (Int.ofNat c, some (f c)) else acc)
    ((-1 : Int), none)).1

/-- The per-variable migration loop (lines 308-315 and 449-456): apply
`acquire_information` to each coordinate in order, threading the
stream cursor. -/
noncomputable def migrateVars (cfg : Config) (k0 : Nat) (xv lv : List ℝ) : List ℝ × Nat :=
  (List.range cfg.n).foldl (fun (acc : List ℝ × Nat) j =>
    let r := acquire_information cfg.stream acc.2 (xv.getD j 0) (lv.getD j 0)
      (cfg.lower_bounds.getD j 0) (cfg.upper_bounds.getD j 0)
    (acc.1 ++ [r.1], r.2)) ([], k0)

/-- Embeds `Civilization::move_society_members` (lines 286-319): every
non-leader member of a society with leaders moves each coordinate
toward its nearest same-society leader. -/
noncomputable def move_society_members (cfg : Config) (s : CivState) : CivState :=
  (List.range cfg.m).foldl (fun st i =>
    if is_leader st i then st
    else if (st.society_leaders.getD (st.assignments.getD i 0) []).isEmpty then st
    else
      let nl := nearestScan (fun j => distIdx cfg st.population i j)
        (st.society_leaders.getD (st.assignments.getD i 0) [])
      if nl < 0 then st
      else
        let mv := migrateVars cfg st.pos (st.population.getD i default).vars
          (st.population.getD nl.toNat default).vars
        { st with
          population := st.population.set i
            { st.population.getD i default with vars := mv.1 },
          pos := mv.2 }) s

/-- Embeds `Civilization::form_global_society` (lines 323-329): concatenate
the per-society leader lists in order. -/
def form_global_society (s : CivState) : CivState :=
  { s with global_society := s.society_leaders.foldl (fun acc l => acc ++ l) [] }

/-- Embeds `Civilization::is_super_leader` (lines 419-424). -/
def is_super_leader (s : CivState) (i : Nat) : Bool :=
  s.super_leaders.contains i

/-- Embeds `Civilization::identify_super_leaders` (lines 333-371): if the
global society is non-empty, re-rank it in place on the already stored
objective and violation values (the injected functors are not
re-invoked) and apply the shared selection rule. -/
noncomputable def identify_super_leaders (s : CivState) : CivState :=
  if s.global_society.isEmpty then s
  else
    { s with
      population := rank_society s.population s.global_society,
      super_leaders := selectLeaders
        (fun i => ((rank_society s.population s.global_society).getD i default).objective_value)
        (fun i => ((rank_society s.population s.global_society).getD i default).rank)
        s.global_society }

/-- Embeds `Civilization::move_global_leaders` (lines 428-460): unless there
are no super leaders, every non-super member of the global society
moves toward its nearest super leader. -/
noncomputable def move_global_leaders (cfg : Config) (s : CivState) : CivState :=
  if s.super_leaders.isEmpty then s
  else
    s.global_society.foldl (fun st li =>
      if is_super_leader st li then st
      else
        let ns := nearestScan (fun j => distIdx cfg st.population li j) st.super_leaders
        if ns < 0 then st
        else
          let mv := migrateVars cfg st.pos (st.population.getD li default).vars
            (st.population.getD ns.toNat default).vars
          { st with
            population := st.population.set li
              { st.population.getD li default with vars := mv.1 },
            pos := mv.2 }) s

/-- One iteration of the driving loop in `main.cpp` (`problem4_1`
lines 72-84, identically `problem4_2` lines 234-246): cluster, identify
leaders (evaluate + rank + select), move members, pool the global
society, identify super leaders (rank + select on stored values), move
global leaders. -/
noncomputable def stepCiv (cfg : Config) (s : CivState) : CivState :=
  move_global_leaders cfg (identify_super_leaders
    (form_global_society (move_society_members cfg (identify_leaders cfg
      (cluster_population cfg s)))))

/-- Runs `t` iterations of the driving loop. -/
noncomputable def stepN (cfg : Config) : Nat → CivState → CivState
  | 0, s => s
  | t + 1, s => stepN cfg t (stepCiv cfg s)

/-- The clustering-loop invariant: assignments cover `[0, m)` with
society ids below the hub count, hubs are population indices, there are
at least two hubs, and every hub is at distance 0 from (the position
of) its assigned hub. -/
def ClusterInv (cfg : Config) (pop : List Ind) (hubs asg : List Nat) : Prop :=
  asg.length = cfg.m ∧ 2 ≤ hubs.length ∧
    (∀ i, i < cfg.m → asg.getD i 0 < hubs.length) ∧
    (∀ h ∈ hubs, h < cfg.m) ∧
    (∀ h ∈ hubs, distIdx cfg pop h (hubs.getD (asg.getD h 0) 0) = 0)

/-- The claimed re-evaluation of the global pool: re-invoke the
injected functors on every pool member (one objective invocation
each). -/
def evalPool (cfg : Config) (pool : List Nat) (pop : List Ind) : List Ind :=
  pool.foldl (fun p i => p.set i (evalInd cfg (p.getD i default))) pop

/-- Modelled from the claim (C5): `identify_super_leaders` with the
claimed re-invocation of the injected functors on the global pool
before ranking it. -/
noncomputable def identify_super_leaders_claim (cfg : Config) (s : CivState) : CivState :=
  if s.global_society.isEmpty then s
  else
    { s with
      population := rank_society (evalPool cfg s.global_society s.population) s.global_society,
      evals := s.evals + s.global_society.length,
      super_leaders := selectLeaders
        (fun i => ((rank_society (evalPool cfg s.global_society s.population)
          s.global_society).getD i default).objective_value)
        (fun i => ((rank_society (evalPool cfg s.global_society s.population)
          s.global_society).getD i default).rank)
        s.global_society }

/-- Modelled from the claim (C5): the per-iteration step with the
claimed re-evaluation of the global pool before the global ranking. -/
noncomputable def stepClaim (cfg : Config) (s : CivState) : CivState :=
  move_global_leaders cfg (identify_super_leaders_claim cfg
    (form_global_society (move_society_members cfg (identify_leaders cfg
      (cluster_population cfg s)))))

/-- The evaluated fields of an individual — everything except the
design variables. -/
def evalView (ind : Ind) : List ℝ × ℝ × Nat :=
  (ind.constraint_violations, ind.objective_value, ind.rank)

/-- The fields the migration phases never touch. -/
def MigFrame (s st : CivState) : Prop :=
  st.population.map evalView = s.population.map evalView ∧ st.evals = s.evals

/-- A one-variable individual at the origin. -/
def ind0 : Ind := ⟨[0], [], 0, 0⟩

/-- The individual `ind0` after being assigned rank 1. -/
def ind0r : Ind := ⟨[0], [], 0, 1⟩

/-- Concrete configuration: `m = 2`, `n = 1`, bounds `[0] ≤ [1]`, zero
objective, empty constraint vector, the all-zero stream. -/
def cfg0 : Config := ⟨2, 1, [0], [1], fun _ => 0, fun _ => [], fun _ => 0⟩

/-- Two identical individuals, fresh state. -/
def s0 : CivState := ⟨[ind0, ind0], [], [], [], [], [], 0, 0⟩

/-- State after clustering. -/
def cs1 : CivState := ⟨[ind0, ind0], [0, 0], [0, 0], [], [], [], 1, 0⟩

/-- State after leader identification. -/
def cs2 : CivState := ⟨[ind0r, ind0r], [0, 0], [0, 0], [[0, 1], []], [], [], 1, 2⟩

/-- State after pooling the global society. -/
def cs3 : CivState := ⟨[ind0r, ind0r], [0, 0], [0, 0], [[0, 1], []], [0, 1], [], 1, 2⟩

/-- State after super-leader identification (and the full step: both
individuals are leaders and super leaders, so no migration happens). -/
def cs4 : CivState := ⟨[ind0r, ind0r], [0, 0], [0, 0], [[0, 1], []], [0, 1], [0, 1], 1, 2⟩

/-- The full-step state of the claim's variant: two extra objective
invocations for the global pool. -/
def cs4c : CivState := ⟨[ind0r, ind0r], [0, 0], [0, 0], [[0, 1], []], [0, 1], [0, 1], 1, 4⟩


/-! ## Lemmas about the generic core -/

section CoreLemmas

variable {α : Type} [LinearOrderedField α]

lemma dominatesGo_self (a : List α) (sb : Bool) : dominatesGo a a sb = sb := by
  induction a generalizing sb with
  | nil => rfl
  | cons x xs ih => simp [dominatesGo, lt_irrefl, ih]

lemma dominates_self (a : List α) : dominates a a = false :=
  dominatesGo_self a false

lemma rankLoop_mem_pool {cv : Nat → List α} {fuel r : Nat} {pool : List Nat}
    {p : Nat × Nat} (hp : p ∈ rankLoop cv fuel r pool) : p.1 ∈ pool := by
  induction fuel generalizing r pool with
  | zero => simp [rankLoop] at hp
  | succ f ih =>
    rw [rankLoop] at hp
    by_cases he : pool.isEmpty
    · simp [he] at hp
    · simp only [he, Bool.false_eq_true, if_false, List.mem_append] at hp
      rcases hp with h1 | h2
      · obtain ⟨i, hi, hpi⟩ := List.mem_map.1 h1
        have : p.1 = i := by rw [← hpi]
        rw [this]
        exact (List.mem_filter.1 hi).1
      · exact (List.mem_filter.1 (ih h2)).1

lemma rankLoop_rank_ge {cv : Nat → List α} {fuel r : Nat} {pool : List Nat}
    {p : Nat × Nat} (hp : p ∈ rankLoop cv fuel r pool) : r ≤ p.2 := by
  induction fuel generalizing r pool with
  | zero => simp [rankLoop] at hp
  | succ f ih =>
    rw [rankLoop] at hp
    by_cases he : pool.isEmpty
    · simp [he] at hp
    · simp only [he, Bool.false_eq_true, if_false, List.mem_append] at hp
      rcases hp with h1 | h2
      · obtain ⟨i, _, hpi⟩ := List.mem_map.1 h1
        have : p.2 = r := by rw [← hpi]
        omega
      · have := ih h2
        omega

lemma rankLoop_dominates_lt {cv : Nat → List α} {fuel r : Nat} {pool : List Nat}
    {i j ri rj : Nat} (hi : (i, ri) ∈ rankLoop cv fuel r pool)
    (hj : (j, rj) ∈ rankLoop cv fuel r pool)
    (hd : dominates (cv i) (cv j) = true) : ri < rj := by
  induction fuel generalizing r pool with
  | zero => simp [rankLoop] at hi
  | succ f ih =>
    have hipool : i ∈ pool := rankLoop_mem_pool hi
    have hij : i ≠ j := by
      intro h
      rw [h] at hd
      rw [dominates_self] at hd
      exact Bool.false_ne_true hd
    rw [rankLoop] at hi hj
    by_cases he : pool.isEmpty
    · simp [he] at hi
    · simp only [he, Bool.false_eq_true, if_false, List.mem_append] at hi hj
      rcases hj with hj1 | hj2
      · -- j was ranked non-dominated in this pass, but i ∈ pool dominates j
        obtain ⟨j0, hj0, hj0e⟩ := List.mem_map.1 hj1
        have hj0j : j0 = j := congrArg Prod.fst hj0e
        rw [hj0j] at hj0
        have hnd := (List.mem_filter.1 hj0).2
        have : dominatedIn cv pool j = true := by
          rw [dominatedIn, List.any_eq_true]
          exact ⟨i, hipool, by simp [hij, hd]⟩
        rw [this] at hnd
        exact absurd hnd (by simp)
      · have hrj : r + 1 ≤ rj := rankLoop_rank_ge hj2
        rcases hi with hi1 | hi2
        · obtain ⟨i0, _, hi0e⟩ := List.mem_map.1 hi1
          have : r = ri := congrArg Prod.snd hi0e
          omega
        · exact ih hi2 hj2

/-- C4: after `rank_society` peels fronts, a pool member can only
dominate members with a strictly greater rank number; no member
dominates another of equal or lower rank. -/
theorem C4_rank_society_dominance (cv : Nat → List α) (members : List Nat)
    (i j ri rj : Nat) (hi : (i, ri) ∈ rankSociety cv members)
    (hj : (j, rj) ∈ rankSociety cv members)
    (hd : dominates (cv i) (cv j) = true) : ri < rj ∧ ¬ rj ≤ ri := by
  have h := rankLoop_dominates_lt hi hj hd
  exact ⟨h, by omega⟩

/-- C4 witness at a concrete pool over `ℚ`: member 0 with violations
`[0]` dominates member 1 with violations `[1]`; the peeling ranks them
1 and 2. -/
theorem C4_rank_society_dominance_witness :
    ((0, 1) ∈ rankSociety (fun i => if i = 0 then [(0 : ℚ)] else [1]) [0, 1]) ∧
      ((1, 2) ∈ rankSociety (fun i => if i = 0 then [(0 : ℚ)] else [1]) [0, 1]) ∧
      (1 : Nat) < 2 := by
  refine ⟨by decide, by decide, ?_⟩
  exact (C4_rank_society_dominance (fun i => if i = 0 then [(0 : ℚ)] else [1]) [0, 1]
    0 1 1 2 (by decide) (by decide) (by decide)).1

lemma dominatesGo_sum {a b : List α} {sb : Bool} (hlen : a.length = b.length)
    (hd : dominatesGo a b sb = true) :
    a.sum ≤ b.sum ∧ (sb = false → a.sum < b.sum) := by
  induction a generalizing b sb with
  | nil =>
    cases b with
    | nil =>
      have hsb : sb = true := hd
      exact ⟨le_refl _, fun h => by rw [h] at hsb; exact absurd hsb (by simp)⟩
    | cons y ys => simp at hlen
  | cons x xs ih =>
    cases b with
    | nil => simp at hlen
    | cons y ys =>
      rw [dominatesGo] at hd
      by_cases hyx : y < x
      · rw [if_pos hyx] at hd
        exact absurd hd (by simp)
      · rw [if_neg hyx] at hd
        have hxy : x ≤ y := not_lt.1 hyx
        have hlen2 : xs.length = ys.length := by simpa using hlen
        have hrec := ih hlen2 hd
        constructor
        · simp only [List.sum_cons]
          exact add_le_add hxy hrec.1
        · intro hsb
          by_cases hlt : x < y
          · simp only [List.sum_cons]
            exact add_lt_add_of_lt_of_le hlt hrec.1
          · have hx : x = y := le_antisymm hxy (not_lt.1 hlt)
            have hflag : (sb || decide (x < y)) = false := by
              rw [hsb]
              simp [hlt]
            have := hrec.2 hflag
            simp only [List.sum_cons, hx]
            exact add_lt_add_left this y

lemma dominates_sum_lt {a b : List α} (hlen : a.length = b.length)
    (hd : dominates a b = true) : a.sum < b.sum :=
  (dominatesGo_sum hlen hd).2 rfl

lemma exists_min_on (f : Nat → α) {l : List Nat} (hl : l ≠ []) :
    ∃ i ∈ l, ∀ j ∈ l, f i ≤ f j := by
  induction l with
  | nil => exact absurd rfl hl
  | cons x xs ih =>
    cases xs with
    | nil => exact ⟨x, by simp, by simp⟩
    | cons y ys =>
      obtain ⟨i, hi, hmin⟩ := ih (by simp)
      by_cases hx : f x ≤ f i
      · refine ⟨x, by simp, ?_⟩
        intro j hj
        rcases List.mem_cons.1 hj with h | h
        · rw [h]
        · exact le_trans hx (hmin j h)
      · refine ⟨i, List.mem_cons_of_mem _ hi, ?_⟩
        intro j hj
        rcases List.mem_cons.1 hj with h | h
        · rw [h]; exact le_of_lt (not_le.1 hx)
        · exact hmin j h

lemma find?_map_pair {l : List Nat} {i r : Nat} (hi : i ∈ l) (t : List (Nat × Nat)) :
    ((l.map (fun x => (x, r)) ++ t).find? (fun p => p.1 == i)) = some (i, r) := by
  induction l with
  | nil => cases hi
  | cons x xs ih =>
    by_cases hx : x = i
    · subst hx
      simp [List.find?]
    · rcases List.mem_cons.1 hi with h | h
      · exact absurd h.symm hx
      · simp only [List.map_cons, List.cons_append, List.find?]
        have : ((x, r).1 == i) = false := by simp [hx]
        rw [this]
        exact ih h

lemma exists_rank_one (cv : Nat → List α) {members : List Nat} (hne : members ≠ [])
    (hlen : ∀ i ∈ members, ∀ j ∈ members, (cv i).length = (cv j).length) :
    ∃ i ∈ members, rankOf cv members i = 1 := by
  obtain ⟨i, hi, hmin⟩ := exists_min_on (fun i => (cv i).sum) hne
  refine ⟨i, hi, ?_⟩
  have hnd : dominatedIn cv members i = false := by
    rw [dominatedIn, List.any_eq_false]
    intro j hj
    simp only [Bool.and_eq_true, bne_iff_ne, ne_eq, not_and]
    intro hji hdom
    have := dominates_sum_lt (hlen j hj i hi) hdom
    exact absurd (hmin j hj) (not_le.2 this)
  obtain ⟨x, xs, hx⟩ := List.exists_cons_of_ne_nil hne
  have hfuel : members.length = xs.length + 1 := by rw [hx]; simp
  rw [rankOf, rankSociety, hfuel, rankLoop]
  have hne2 : members.isEmpty = false := by rw [hx]; rfl
  rw [hne2]
  simp only [Bool.false_eq_true, if_false]
  have hmem : i ∈ members.filter (fun x => ! dominatedIn cv members x) :=
    List.mem_filter.2 ⟨hi, by rw [hnd]; rfl⟩
  rw [find?_map_pair hmem]

/-- C1: on a non-empty pool whose ranks were populated by
`rank_society` (equal-length violation vectors), the code's leader
selection coincides with the spec's reference rule, and the selected
leader set is non-empty. -/
theorem C1_leader_selection (obj : Nat → α) (cv : Nat → List α) (members : List Nat)
    (hne : members ≠ [])
    (hlen : ∀ i ∈ members, ∀ j ∈ members, (cv i).length = (cv j).length) :
    selectLeaders obj (rankOf cv members) members
        = leadersRule obj (rankOf cv members) members ∧
      selectLeaders obj (rankOf cv members) members ≠ [] := by
  obtain ⟨i, hi, hri⟩ := exists_rank_one cv hne hlen
  have hr1mem : i ∈ members.filter (fun x => rankOf cv members x == 1) :=
    List.mem_filter.2 ⟨hi, by simp [hri]⟩
  have hr1ne : members.filter (fun x => rankOf cv members x == 1) ≠ [] :=
    List.ne_nil_of_mem hr1mem
  have hlen0 : 0 < members.length := List.length_pos.2 hne
  rw [selectLeaders, leadersRule]
  simp only [if_pos hlen0]
  by_cases hc : ((members.length : α) * (1 / 2)
      < ((members.filter (fun x => rankOf cv members x == 1)).length : α))
  · rw [if_pos hc, if_neg (not_le.2 hc)]
    by_cases hf : (members.filter (fun x => rankOf cv members x == 1)).filter
        (fun x => decide (obj x ≤ (members.map obj).sum / (members.length : α))) = []
    · rw [if_pos hf]
      have hemp : (((members.filter (fun x => rankOf cv members x == 1)).filter
          (fun x => decide (obj x ≤ (members.map obj).sum / (members.length : α)))).isEmpty
            && ! (members.filter (fun x => rankOf cv members x == 1)).isEmpty) = true := by
        rw [hf]
        simp [List.isEmpty_eq_false_iff_exists_mem.2 ⟨i, hr1mem⟩]
      rw [if_pos hemp]
      obtain ⟨x, xs, hx⟩ := List.exists_cons_of_ne_nil hr1ne
      rw [hx]
      exact ⟨rfl, by simp⟩
    · rw [if_neg hf]
      have hemp : ¬ ((((members.filter (fun x => rankOf cv members x == 1)).filter
          (fun x => decide (obj x ≤ (members.map obj).sum / (members.length : α)))).isEmpty
            && ! (members.filter (fun x => rankOf cv members x == 1)).isEmpty) = true) := by
        simp only [Bool.and_eq_true, List.isEmpty_iff]
        intro h
        exact hf h.1
      rw [if_neg hemp]
      exact ⟨rfl, hf⟩
  · rw [if_neg hc, if_pos (not_lt.1 hc)]
    exact ⟨rfl, hr1ne⟩

/-- C1 witness over `ℚ`: pool `[0, 1]` with empty violation vectors and
objectives `0` and `1`; the selection is non-empty and agrees with the
reference rule. -/
theorem C1_leader_selection_witness :
    (selectLeaders (fun i => (i : ℚ)) (rankOf (fun _ => ([] : List ℚ)) [0, 1]) [0, 1]
        = leadersRule (fun i => (i : ℚ)) (rankOf (fun _ => ([] : List ℚ)) [0, 1]) [0, 1]) ∧
      selectLeaders (fun i => (i : ℚ)) (rankOf (fun _ => ([] : List ℚ)) [0, 1]) [0, 1] ≠ [] :=
  C1_leader_selection (fun i => (i : ℚ)) (fun _ => ([] : List ℚ)) [0, 1]
    (by decide) (fun i _ j _ => rfl)

/-- C10: `acquire_information` consumes exactly one draw from the
stream when the selected region's interval is degenerate and exactly
two draws otherwise, so per-coordinate stream consumption depends on
the data values. -/
theorem C10_draw_consumption (u : Nat → α) (k : Nat) (valInd valLeader lb ub : α) :
    ((acquire_information u k valInd valLeader lb ub).2 = k + 1
        ↔ degenerateDraw u k valInd valLeader lb ub) ∧
      ((acquire_information u k valInd valLeader lb ub).2 = k + 2
        ↔ ¬ degenerateDraw u k valInd valLeader lb ub) := by
  rw [acquire_information, degenerateDraw]
  by_cases h1 : u k < 1 / 4
  · have h1b : ¬ (1 / 4 : α) ≤ u k := not_le.2 h1
    have h1c : ¬ (3 / 4 : α) ≤ u k := not_le.2 (lt_trans h1 (by norm_num))
    by_cases h2 : min valInd valLeader ≤ lb
    · simp only [if_pos h1, if_pos h2]
      constructor
      · constructor
        · intro _
          exact Or.inl ⟨h1, h2⟩
        · intro _
          trivial
      · constructor
        · intro h
          omega
        · intro h
          exact absurd (Or.inl ⟨h1, h2⟩) h
    · simp only [if_pos h1, if_neg h2]
      constructor
      · constructor
        · intro h
          omega
        · rintro (⟨_, hb⟩ | ⟨ha, _⟩ | ⟨ha, _⟩)
          · exact absurd hb h2
          · exact absurd ha h1b
          · exact absurd ha h1c
      · constructor
        · rintro _ (⟨_, hb⟩ | ⟨ha, _⟩ | ⟨ha, _⟩)
          · exact h2 hb
          · exact h1b ha
          · exact h1c ha
        · intro _
          trivial
  · by_cases h3 : u k < 3 / 4
    · have h3b : (1 / 4 : α) ≤ u k := not_lt.1 h1
      have h3c : ¬ (3 / 4 : α) ≤ u k := not_le.2 h3
      by_cases h4 : max valInd valLeader ≤ min valInd valLeader
      · simp only [if_neg h1, if_pos h3, if_pos h4]
        constructor
        · constructor
          · intro _
            exact Or.inr (Or.inl ⟨h3b, h3, h4⟩)
          · intro _
            trivial
        · constructor
          · intro h
            omega
          · intro h
            exact absurd (Or.inr (Or.inl ⟨h3b, h3, h4⟩)) h
      · simp only [if_neg h1, if_pos h3, if_neg h4]
        constructor
        · constructor
          · intro h
            omega
          · rintro (⟨ha, _⟩ | ⟨_, _, hb⟩ | ⟨ha, _⟩)
            · exact absurd ha h1
            · exact absurd hb h4
            · exact absurd ha h3c
        · constructor
          · rintro _ (⟨ha, _⟩ | ⟨_, _, hb⟩ | ⟨ha, _⟩)
            · exact h1 ha
            · exact h4 hb
            · exact h3c ha
          · intro _
            trivial
    · have h5 : (3 / 4 : α) ≤ u k := not_lt.1 h3
      have h5b : ¬ u k < 1 / 4 := h1
      by_cases h6 : ub ≤ max valInd valLeader
      · simp only [if_neg h1, if_neg h3, if_pos h6]
        constructor
        · constructor
          · intro _
            exact Or.inr (Or.inr ⟨h5, h6⟩)
          · intro _
            trivial
        · constructor
          · intro h
            omega
          · intro h
            exact absurd (Or.inr (Or.inr ⟨h5, h6⟩)) h
      · simp only [if_neg h1, if_neg h3, if_neg h6]
        constructor
        · constructor
          · intro h
            omega
          · rintro (⟨ha, _⟩ | ⟨_, hb, _⟩ | ⟨_, hb⟩)
            · exact absurd ha h1
            · exact absurd hb h3
            · exact absurd hb h6
        · constructor
          · rintro _ (⟨ha, _⟩ | ⟨_, hb, _⟩ | ⟨_, hb⟩)
            · exact h1 ha
            · exact h3 hb
            · exact h6 hb
          · intro _
            trivial

/-- C3 counterexample: with both input values outside `[lb, ub]`
(`ind_val = 2`, `leader_val = 3`, `lb = 0 < 1 = ub`) and the region-2
draw `r = 1/2`, the operator returns `5/2`, which is not in `[0, 1]`:
the claim's "any real values" is refuted. -/
theorem C3_counterexample :
    (0 : ℝ) < 1 ∧
      (acquire_information (fun _ => (1 / 2 : ℝ)) 0 2 3 0 1).1 = 5 / 2 ∧
      ¬ ((0 : ℝ) ≤ (acquire_information (fun _ => (1 / 2 : ℝ)) 0 2 3 0 1).1
          ∧ (acquire_information (fun _ => (1 / 2 : ℝ)) 0 2 3 0 1).1 ≤ 1) := by
  have hval : (acquire_information (fun _ => (1 / 2 : ℝ)) 0 2 3 0 1).1 = 5 / 2 := by
    rw [acquire_information]
    norm_num [min_def, max_def, uniformIn]
  refine ⟨by norm_num, hval, ?_⟩
  rw [hval]
  norm_num

set_option maxHeartbeats 1000000 in
/-- C3 (amended): when the two input values themselves lie within
`[lb, ub]` and the unit draws are in `[0, 1)`, the migration operator's
result lies in `[lb, ub]` inclusive; moreover each region collapses as
claimed (region 1 to `lb` when `min ≤ lb`, region 2 to the min when
`max ≤ min`, region 3 to `ub` when `ub ≤ max`). -/
theorem C3_acquire_in_bounds (u : Nat → α) (k : Nat) (valInd valLeader lb ub : α)
    (hu : ∀ t, 0 ≤ u t ∧ u t < 1)
    (hi1 : lb ≤ valInd) (hi2 : valInd ≤ ub)
    (hl1 : lb ≤ valLeader) (hl2 : valLeader ≤ ub) :
    (lb ≤ (acquire_information u k valInd valLeader lb ub).1
        ∧ (acquire_information u k valInd valLeader lb ub).1 ≤ ub) ∧
      (u k < 1 / 4 → min valInd valLeader ≤ lb
        → (acquire_information u k valInd valLeader lb ub).1 = lb) ∧
      (1 / 4 ≤ u k → u k < 3 / 4 → max valInd valLeader ≤ min valInd valLeader
        → (acquire_information u k valInd valLeader lb ub).1 = min valInd valLeader) ∧
      (3 / 4 ≤ u k → ub ≤ max valInd valLeader
        → (acquire_information u k valInd valLeader lb ub).1 = ub) := by
  have hminlb : lb ≤ min valInd valLeader := le_min hi1 hl1
  have hminub : min valInd valLeader ≤ ub := le_trans (min_le_left _ _) hi2
  have hmaxlb : lb ≤ max valInd valLeader := le_trans hi1 (le_max_left _ _)
  have hmaxub : max valInd valLeader ≤ ub := max_le hi2 hl2
  have hu0 := (hu (k + 1)).1
  have hu1 := le_of_lt (hu (k + 1)).2
  rw [acquire_information]
  refine ⟨?_, ?_, ?_, ?_⟩
  · by_cases h1 : u k < 1 / 4
    · by_cases h2 : min valInd valLeader ≤ lb
      · simp only [if_pos h1, if_pos h2]
        exact ⟨le_refl _, le_trans hminlb hminub⟩
      · simp only [if_pos h1, if_neg h2]
        have hd : 0 ≤ min valInd valLeader - lb := by
          have := not_le.1 h2
          linarith
        constructor
        · rw [uniformIn]
          nlinarith [mul_nonneg hu0 hd]
        · rw [uniformIn]
          nlinarith [mul_le_of_le_one_left hd hu1]
    · by_cases h3 : u k < 3 / 4
      · by_cases h4 : max valInd valLeader ≤ min valInd valLeader
        · simp only [if_neg h1, if_pos h3, if_pos h4]
          exact ⟨hminlb, hminub⟩
        · simp only [if_neg h1, if_pos h3, if_neg h4]
          have hd : 0 ≤ max valInd valLeader - min valInd valLeader := by
            have := not_le.1 h4
            linarith
          constructor
          · rw [uniformIn]
            nlinarith [mul_nonneg hu0 hd]
          · rw [uniformIn]
            nlinarith [mul_nonneg hu0 hd, mul_le_of_le_one_left hd hu1]
      · by_cases h6 : ub ≤ max valInd valLeader
        · simp only [if_neg h1, if_neg h3, if_pos h6]
          exact ⟨le_trans hmaxlb hmaxub, le_refl _⟩
        · simp only [if_neg h1, if_neg h3, if_neg h6]
          have hd : 0 ≤ ub - max valInd valLeader := by
            have := not_le.1 h6
            linarith
          constructor
          · rw [uniformIn]
            nlinarith [mul_nonneg hu0 hd]
          · rw [uniformIn]
            nlinarith [mul_le_of_le_one_left hd hu1]
  · intro h1 h2
    simp only [if_pos h1, if_pos h2]
  · intro h1 h3 h4
    simp only [if_neg (not_lt.2 h1), if_pos h3, if_pos h4]
  · intro h5 h6
    have h1 : ¬ u k < 1 / 4 := not_lt.2 (le_trans (by norm_num) h5)
    have h3 : ¬ u k < 3 / 4 := not_lt.2 h5
    simp only [if_neg h1, if_neg h3, if_pos h6]

/-- C3 witness over `ℚ`: `valInd = valLeader = 1/3`, bounds `[0, 1]`,
constant draw `1/2`. -/
theorem C3_acquire_in_bounds_witness :
    ((0 : ℚ) ≤ (acquire_information (fun _ => (1 / 2 : ℚ)) 0 (1 / 3) (1 / 3) 0 1).1
      ∧ (acquire_information (fun _ => (1 / 2 : ℚ)) 0 (1 / 3) (1 / 3) 0 1).1 ≤ 1) :=
  (C3_acquire_in_bounds (fun _ => (1 / 2 : ℚ)) 0 (1 / 3) (1 / 3) 0 1
    (fun _ => ⟨by norm_num, by norm_num⟩)
    (by norm_num) (by norm_num) (by norm_num) (by norm_num)).1

end CoreLemmas

/-! ## Clustering lemmas: invariants and termination -/

lemma getD_map_range {β : Type} (g : Nat → β) (d : β) {i m : Nat} (h : i < m) :
    ((List.range m).map g).getD i d = g i := by
  rw [List.getD_eq_getElem _ _ (by simpa using h)]
  simp

lemma argmaxScan_spec (f : Nat → ℝ) :
    ∀ m, 1 ≤ m → (∀ i, 0 ≤ f i) →
      ∃ j, j < m ∧ argmaxScan f m = (Int.ofNat j, f j) ∧ ∀ i, i < m → f i ≤ f j := by
  intro m
  induction m with
  | zero => omega
  | succ k ih =>
    intro _ hf
    by_cases hk : 1 ≤ k
    · obtain ⟨j, hj, heq, hmax⟩ := ih hk hf
      rw [argmaxScan] at heq ⊢
      rw [List.range_succ, List.foldl_append, heq]
      simp only [List.foldl_cons, List.foldl_nil]
      by_cases hc : f j < f k
      · rw [if_pos hc]
        refine ⟨k, by omega, rfl, ?_⟩
        intro i hi
        rcases Nat.lt_succ_iff_lt_or_eq.1 hi with h | h
        · exact le_trans (hmax i h) (le_of_lt hc)
        · rw [h]
      · rw [if_neg hc]
        refine ⟨j, by omega, rfl, ?_⟩
        intro i hi
        rcases Nat.lt_succ_iff_lt_or_eq.1 hi with h | h
        · exact hmax i h
        · rw [h]
          exact not_lt.1 hc
    · have hk0 : k = 0 := by omega
      subst hk0
      refine ⟨0, by omega, ?_, ?_⟩
      · rw [argmaxScan]
        have hr : List.range 1 = [0] := rfl
        rw [hr]
        simp only [List.foldl_cons, List.foldl_nil]
        rw [if_pos (lt_of_lt_of_le (by norm_num) (hf 0))]
        rfl
      · intro i hi
        have hi0 : i = 0 := by omega
        rw [hi0]

lemma intDraw_lt {u : Nat → ℝ} {k m : Nat} (hm : 1 ≤ m) (h0 : 0 ≤ u k) (h1 : u k < 1) :
    intDraw u k m < m := by
  rw [intDraw]
  have hmpos : (0 : ℝ) < (m : ℝ) := by exact_mod_cast hm
  have hmul : u k * (m : ℝ) < (m : ℝ) := by nlinarith
  have hfloor : ⌊u k * (m : ℝ)⌋ < (m : ℤ) := by
    rw [Int.floor_lt]
    exact_mod_cast hmul
  omega

lemma calculate_distance_nonneg (n : Nat) (a b : List ℝ) :
    0 ≤ calculate_distance n a b :=
  Real.sqrt_nonneg _

lemma calculate_distance_self (n : Nat) (a : List ℝ) : calculate_distance n a a = 0 := by
  rw [calculate_distance]
  have hz : ((List.range n).map (fun i =>
      (a.getD i 0 - a.getD i 0) * (a.getD i 0 - a.getD i 0))).sum = 0 := by
    simp
  rw [hz, Real.sqrt_zero]

lemma distIdx_nonneg (cfg : Config) (pop : List Ind) (i j : Nat) :
    0 ≤ distIdx cfg pop i j :=
  calculate_distance_nonneg _ _ _

lemma distIdx_self (cfg : Config) (pop : List Ind) (i : Nat) : distIdx cfg pop i i = 0 :=
  calculate_distance_self _ _

lemma totalHubDist_nonneg (cfg : Config) (pop : List Ind) (l : List Nat) :
    0 ≤ totalHubDist cfg pop l := by
  induction l with
  | nil => simp [totalHubDist]
  | cons h t ih =>
    rw [totalHubDist]
    have h1 : 0 ≤ (t.map (fun h2 => distIdx cfg pop h h2)).sum := by
      apply List.sum_nonneg
      intro x hx
      obtain ⟨y, _, hy⟩ := List.mem_map.1 hx
      rw [← hy]
      exact distIdx_nonneg cfg pop h y
    linarith

lemma thresholdD_nonneg (cfg : Config) (pop : List Ind) (hubs : List Nat) :
    0 ≤ thresholdD cfg pop hubs := by
  rw [thresholdD]
  split
  · have h1 := totalHubDist_nonneg cfg pop hubs
    positivity
  · exact le_refl 0

lemma farthest_spec (cfg : Config) (pop : List Ind) (hubs asg : List Nat)
    (hm : 1 ≤ cfg.m) :
    ∃ j, j < cfg.m ∧ farthest cfg pop hubs asg
        = (Int.ofNat j, distIdx cfg pop j (hubs.getD (asg.getD j 0) 0)) ∧
      ∀ i, i < cfg.m → distIdx cfg pop i (hubs.getD (asg.getD i 0) 0)
        ≤ distIdx cfg pop j (hubs.getD (asg.getD j 0) 0) :=
  argmaxScan_spec _ cfg.m hm (fun i => distIdx_nonneg cfg pop i _)

lemma clusterLoop_converges (cfg : Config) (pop : List Ind) (hm : 1 ≤ cfg.m) :
    ∀ fuel hubs asg, ClusterInv cfg pop hubs asg →
      cfg.m + 1 - hubs.toFinset.card ≤ fuel →
      (clusterLoop cfg pop fuel hubs asg).2.2 = true ∧
        ClusterInv cfg pop (clusterLoop cfg pop fuel hubs asg).1
          (clusterLoop cfg pop fuel hubs asg).2.1 := by
  intro fuel
  induction fuel with
  | zero =>
    intro hubs asg hinv hfuel
    exfalso
    have hsub : hubs.toFinset ⊆ Finset.range cfg.m := by
      intro x hx
      exact Finset.mem_range.2 (hinv.2.2.2.1 x (List.mem_toFinset.1 hx))
    have hcard : hubs.toFinset.card ≤ cfg.m := by
      have := Finset.card_le_card hsub
      simpa using this
    omega
  | succ f ih =>
    intro hubs asg hinv hfuel
    obtain ⟨hlen, hhubs2, hbnd, hhm, hzero⟩ := hinv
    obtain ⟨j, hj, hfar, hmax⟩ := farthest_spec cfg pop hubs asg hm
    rw [clusterLoop]
    by_cases hbreak : (farthest cfg pop hubs asg).2 ≤ thresholdD cfg pop hubs
    · rw [if_pos hbreak]
      exact ⟨rfl, hlen, hhubs2, hbnd, hhm, hzero⟩
    · rw [if_neg hbreak]
      have hfj : 0 < distIdx cfg pop j (hubs.getD (asg.getD j 0) 0) := by
        have hD := thresholdD_nonneg cfg pop hubs
        have : ¬ distIdx cfg pop j (hubs.getD (asg.getD j 0) 0)
            ≤ thresholdD cfg pop hubs := by
          rw [hfar] at hbreak
          exact hbreak
        linarith [not_le.1 this]
      have hjnot : j ∉ hubs := by
        intro hmem
        have := hzero j hmem
        linarith
      have htn : (farthest cfg pop hubs asg).1.toNat = j := by
        rw [hfar]
        rfl
      rw [htn]
      -- the new invariant
      have hinv2 : ClusterInv cfg pop (hubs ++ [j]) (reassignAll cfg pop hubs asg j) := by
        refine ⟨by simp [reassignAll], ?_, ?_, ?_, ?_⟩
        · rw [List.length_append]
          omega
        · intro i hi
          rw [reassignAll, getD_map_range _ _ hi, List.length_append]
          split
          · simp
          · have h2 := hbnd i hi
            simp only [List.length_singleton]
            omega
        · intro h hh
          rcases List.mem_append.1 hh with h1 | h1
          · exact hhm h h1
          · have : h = j := by simpa using h1
            rw [this]
            exact hj
        · intro h hh
          rcases List.mem_append.1 hh with h1 | h1
          · -- an old hub keeps its assignment and its zero distance
            have hhlt : h < cfg.m := hhm h h1
            have hget : (reassignAll cfg pop hubs asg j).getD h 0
                = if distIdx cfg pop h j < distIdx cfg pop h (hubs.getD (asg.getD h 0) 0)
                  then hubs.length else asg.getD h 0 := by
              rw [reassignAll, getD_map_range _ _ hhlt]
            rw [hget]
            have hz := hzero h h1
            rw [hz, if_neg (not_lt.2 (distIdx_nonneg cfg pop h j))]
            have hb := hbnd h hhlt
            rw [List.getD_append _ _ _ _ hb]
            exact hz
          · have hhj : h = j := by simpa using h1
            subst hhj
            have hget : (reassignAll cfg pop hubs asg h).getD h 0 = hubs.length := by
              rw [reassignAll, getD_map_range _ _ hj]
              rw [if_pos]
              rw [distIdx_self]
              exact hfj
            rw [hget]
            rw [List.getD_append_right _ _ _ _ (le_refl _)]
            simp [distIdx_self]
      have hcard2 : (hubs ++ [j]).toFinset.card = hubs.toFinset.card + 1 := by
        rw [List.toFinset_append]
        have : ([j] : List Nat).toFinset = {j} := by simp
        rw [this]
        rw [Finset.union_comm, ← Finset.insert_eq]
        exact Finset.card_insert_of_not_mem (by simpa using hjnot)
      have hfuel2 : cfg.m + 1 - (hubs ++ [j]).toFinset.card ≤ f := by
        rw [hcard2]
        omega
      exact ih (hubs ++ [j]) (reassignAll cfg pop hubs asg j) hinv2 hfuel2

lemma clusterInit_inv (cfg : Config) (s : CivState) (hm : 1 ≤ cfg.m)
    (hu : wfStream cfg.stream) :
    ClusterInv cfg s.population (clusterInit cfg s).hubs (clusterInit cfg s).assignments := by
  have hh0 : firstHub cfg s < cfg.m :=
    intDraw_lt hm (hu s.pos).1 (hu s.pos).2
  have hsec : secondHub cfg s < cfg.m := by
    obtain ⟨j, hj, heq, _⟩ := argmaxScan_spec
      (fun i => distIdx cfg s.population i (firstHub cfg s)) cfg.m hm
      (fun i => distIdx_nonneg cfg s.population i _)
    rw [secondHub, heq]
    simpa using hj
  have hhubs : (clusterInit cfg s).hubs = [firstHub cfg s, secondHub cfg s] := rfl
  have hasg : (clusterInit cfg s).assignments = (List.range cfg.m).map (fun i =>
      if distIdx cfg s.population i (firstHub cfg s)
          ≤ distIdx cfg s.population i (secondHub cfg s) then 0 else 1) := rfl
  rw [hhubs, hasg]
  refine ⟨by simp, by simp, ?_, ?_, ?_⟩
  · intro i hi
    rw [getD_map_range _ _ hi]
    split
    · simp
    · simp
  · intro h hh
    rcases List.mem_cons.1 hh with h1 | h1
    · rw [h1]; exact hh0
    · have : h = secondHub cfg s := by simpa using h1
      rw [this]; exact hsec
  · intro h hh
    rcases List.mem_cons.1 hh with h1 | h1
    · subst h1
      rw [getD_map_range _ _ hh0]
      rw [if_pos]
      · simp [distIdx_self]
      · rw [distIdx_self]
        exact distIdx_nonneg cfg s.population (firstHub cfg s) (secondHub cfg s)
    · have hsh : h = secondHub cfg s := by simpa using h1
      subst hsh
      rw [getD_map_range _ _ hsec]
      by_cases hc : distIdx cfg s.population (secondHub cfg s) (firstHub cfg s)
          ≤ distIdx cfg s.population (secondHub cfg s) (secondHub cfg s)
      · rw [if_pos hc]
        have hz : distIdx cfg s.population (secondHub cfg s) (firstHub cfg s) = 0 := by
          have h2 := distIdx_self cfg s.population (secondHub cfg s)
          have h3 := distIdx_nonneg cfg s.population (secondHub cfg s) (firstHub cfg s)
          rw [h2] at hc
          linarith
        simpa using hz
      · rw [if_neg hc]
        simp [distIdx_self]

/-- C2: for a non-empty population of `m` individuals and a well-formed
stream, the promote-farthest-hub loop of `cluster_population` reaches
its break within `m` iterations (it cannot run forever), and on
termination there are at least two hubs and every assignment entry is a
society index in `[0, len(hubs))`. -/
theorem C2_cluster_population_terminates (cfg : Config) (s : CivState)
    (hm : 1 ≤ cfg.m) (hpop : s.population ≠ []) (hu : wfStream cfg.stream) :
    (clusterLoop cfg s.population cfg.m (clusterInit cfg s).hubs
        (clusterInit cfg s).assignments).2.2 = true ∧
      2 ≤ (cluster_population cfg s).hubs.length ∧
      (cluster_population cfg s).assignments.length = cfg.m ∧
      ∀ i, i < cfg.m →
        (cluster_population cfg s).assignments.getD i 0
          < (cluster_population cfg s).hubs.length := by
  have hinv := clusterInit_inv cfg s hm hu
  have hcard1 : 1 ≤ (clusterInit cfg s).hubs.toFinset.card := by
    have : firstHub cfg s ∈ (clusterInit cfg s).hubs.toFinset := by
      simp [clusterInit]
    exact Finset.card_pos.2 ⟨_, this⟩
  have hfuel : cfg.m + 1 - (clusterInit cfg s).hubs.toFinset.card ≤ cfg.m := by omega
  have hpopInit : (clusterInit cfg s).population = s.population := rfl
  have hmain := clusterLoop_converges cfg s.population hm cfg.m
    (clusterInit cfg s).hubs (clusterInit cfg s).assignments hinv hfuel
  have hne : s.population.isEmpty = false := by
    simpa [List.isEmpty_iff] using hpop
  have hcp : cluster_population cfg s =
      { clusterInit cfg s with
        hubs := (clusterLoop cfg s.population cfg.m (clusterInit cfg s).hubs
          (clusterInit cfg s).assignments).1,
        assignments := (clusterLoop cfg s.population cfg.m (clusterInit cfg s).hubs
          (clusterInit cfg s).assignments).2.1 } := by
    rw [cluster_population, hne]
    rfl
  obtain ⟨hterm, hlen, h2, hbnd, _, _⟩ := hmain
  refine ⟨hterm, ?_, ?_, ?_⟩
  · rw [hcp]
    exact h2
  · rw [hcp]
    exact hlen
  · intro i hi
    rw [hcp]
    exact hbnd i hi

/-! ## Frame properties of the migration phases and the step -/

lemma foldl_preserve {β γ : Type} (P : β → Prop) (f : β → γ → β) (l : List γ) (b : β)
    (hb : P b) (hf : ∀ x a, P x → P (f x a)) : P (l.foldl f b) := by
  induction l generalizing b with
  | nil => exact hb
  | cons a t ih => exact ih (f b a) (hf b a hb)

lemma map_evalView_set (pop : List Ind) (i : Nat) (vs : List ℝ) :
    ((pop.set i { pop.getD i default with vars := vs }).map evalView)
      = pop.map evalView := by
  induction pop generalizing i with
  | nil => simp
  | cons a t ih =>
    cases i with
    | zero => simp [evalView]
    | succ k =>
      simp only [List.set_cons_succ, List.getD_cons_succ, List.map_cons, List.cons.injEq]
      exact ⟨trivial, ih k⟩

lemma move_society_members_frame (cfg : Config) (s : CivState) :
    MigFrame s (move_society_members cfg s) := by
  rw [move_society_members]
  apply foldl_preserve (MigFrame s)
  · exact ⟨rfl, rfl⟩
  · intro st i hst
    dsimp only
    split
    · exact hst
    · split
      · exact hst
      · split
        · exact hst
        · exact ⟨(map_evalView_set st.population i _).trans hst.1, hst.2⟩

lemma move_global_leaders_frame (cfg : Config) (s : CivState) :
    MigFrame s (move_global_leaders cfg s) := by
  rw [move_global_leaders]
  split
  · exact ⟨rfl, rfl⟩
  · apply foldl_preserve (MigFrame s)
    · exact ⟨rfl, rfl⟩
    · intro st i hst
      dsimp only
      split
      · exact hst
      · split
        · exact hst
        · exact ⟨(map_evalView_set st.population i _).trans hst.1, hst.2⟩

/-- C9: the two migration phases write only the `variables` field:
every individual's `objective_value`, `constraint_violations` and
`rank` (the `evalView` projection) are unchanged by
`move_society_members` and by `move_global_leaders`, so the in-step
super-leader ranking and selection read the values that were stored
before the local migration, and those fields stay stale until the next
`evaluate_population`. -/
theorem C9_migration_writes_only_variables (cfg : Config) (s : CivState) :
    (move_society_members cfg s).population.map evalView = s.population.map evalView ∧
      (move_global_leaders cfg s).population.map evalView = s.population.map evalView :=
  ⟨(move_society_members_frame cfg s).1, (move_global_leaders_frame cfg s).1⟩

lemma cluster_population_population (cfg : Config) (s : CivState) :
    (cluster_population cfg s).population = s.population := by
  rw [cluster_population]
  split <;> rfl

lemma cluster_population_evals (cfg : Config) (s : CivState) :
    (cluster_population cfg s).evals = s.evals := by
  rw [cluster_population]
  split <;> rfl

lemma identify_leaders_evals (cfg : Config) (s : CivState) :
    (identify_leaders cfg s).evals = s.evals + s.population.length :=
  rfl

lemma form_global_society_evals (s : CivState) :
    (form_global_society s).evals = s.evals :=
  rfl

lemma identify_super_leaders_evals (s : CivState) :
    (identify_super_leaders s).evals = s.evals := by
  rw [identify_super_leaders]
  split <;> rfl

/-- C5 (amended): one step executes exactly the code's phase sequence
Cluster → Evaluate+Rank+SelectLocalLeaders → MigrateMembers →
PoolGlobalSociety → Rank+SelectSuperLeaders (on the already stored
objective/violation values) → MigrateLocalLeaders, with no early
termination; the injected objective functor is invoked exactly once per
individual per step (inside `identify_leaders`), and is NOT re-invoked
for the global pool before the global ranking. -/
theorem C5_step_sequence (cfg : Config) (s : CivState) :
    stepCiv cfg s
        = move_global_leaders cfg (identify_super_leaders (form_global_society
            (move_society_members cfg (identify_leaders cfg (cluster_population cfg s))))) ∧
      (stepCiv cfg s).evals = s.evals + s.population.length := by
  refine ⟨rfl, ?_⟩
  rw [stepCiv]
  rw [(move_global_leaders_frame cfg _).2]
  rw [identify_super_leaders_evals]
  rw [form_global_society_evals]
  rw [(move_society_members_frame cfg _).2]
  rw [identify_leaders_evals]
  rw [cluster_population_evals, cluster_population_population]

/-! ## Construction (C6) and determinism (C8) -/

/-- C6 (amended): construction performs no validation: any sizes and
bounds — including mismatched bound-array lengths, `m < 2`, or
degenerate `lb[j] ≥ ub[j]` — are stored verbatim (nothing is clamped),
and initialization proceeds, filling exactly `m` individuals. -/
theorem C6_no_construction_validation (m n : Nat) (lb ub : List ℝ)
    (f : List ℝ → ℝ) (g : List ℝ → List ℝ) (u : Nat → ℝ) :
    (mkCivilization m n lb ub f g u).1.m = m ∧
      (mkCivilization m n lb ub f g u).1.n = n ∧
      (mkCivilization m n lb ub f g u).1.lower_bounds = lb ∧
      (mkCivilization m n lb ub f g u).1.upper_bounds = ub ∧
      (initPopulation (mkCivilization m n lb ub f g u).1
        (mkCivilization m n lb ub f g u).2).population.length = m := by
  refine ⟨rfl, rfl, rfl, rfl, ?_⟩
  simp [initPopulation, mkCivilization]

/-- C6 counterexample: the invalid configuration `m = 1 < 2` with
degenerate bounds `lb = [5] ≥ [3] = ub` is accepted: the constructor
stores it verbatim and `initialize` fills one individual — there is no
rejection, in contradiction with the claimed fail-fast behaviour. -/
theorem C6_counterexample :
    ((1 : Nat) < 2 ∧ (3 : ℝ) ≤ 5) ∧
      (mkCivilization 1 1 [5] [3] (fun _ => 0) (fun _ => []) (fun _ => 0)).1.m = 1 ∧
      (mkCivilization 1 1 [5] [3] (fun _ => 0) (fun _ => []) (fun _ => 0)).1.lower_bounds
        = [5] ∧
      (mkCivilization 1 1 [5] [3] (fun _ => 0) (fun _ => []) (fun _ => 0)).1.upper_bounds
        = [3] ∧
      (initPopulation (mkCivilization 1 1 [5] [3] (fun _ => 0) (fun _ => []) (fun _ => 0)).1
        (mkCivilization 1 1 [5] [3] (fun _ => 0) (fun _ => [])
          (fun _ => 0)).2).population.length = 1 := by
  refine ⟨⟨by norm_num, by norm_num⟩, rfl, rfl, rfl, ?_⟩
  simp [initPopulation, mkCivilization]

/-- C8: two civilizations constructed with identical `(m, n,
lower_bounds, upper_bounds)`, identical injected objective/constraint
functors and an identical seeded stream, driven through the same number
of per-iteration steps from initialization, have identical hubs,
assignments and individual variable trajectories: the process is a
deterministic function of the configuration and the stream, which is
the only source of randomness in the model. -/
theorem C8_determinism (m1 m2 n1 n2 : Nat) (lb1 lb2 ub1 ub2 : List ℝ)
    (f1 f2 : List ℝ → ℝ) (g1 g2 : List ℝ → List ℝ) (u1 u2 : Nat → ℝ) (t : Nat)
    (hm : m1 = m2) (hn : n1 = n2) (hlb : lb1 = lb2) (hub : ub1 = ub2)
    (hf : f1 = f2) (hg : g1 = g2) (hu : u1 = u2) :
    (stepN (mkCivilization m1 n1 lb1 ub1 f1 g1 u1).1 t
        (initPopulation (mkCivilization m1 n1 lb1 ub1 f1 g1 u1).1
          (mkCivilization m1 n1 lb1 ub1 f1 g1 u1).2)).hubs
      = (stepN (mkCivilization m2 n2 lb2 ub2 f2 g2 u2).1 t
          (initPopulation (mkCivilization m2 n2 lb2 ub2 f2 g2 u2).1
            (mkCivilization m2 n2 lb2 ub2 f2 g2 u2).2)).hubs ∧
      (stepN (mkCivilization m1 n1 lb1 ub1 f1 g1 u1).1 t
        (initPopulation (mkCivilization m1 n1 lb1 ub1 f1 g1 u1).1
          (mkCivilization m1 n1 lb1 ub1 f1 g1 u1).2)).assignments
        = (stepN (mkCivilization m2 n2 lb2 ub2 f2 g2 u2).1 t
            (initPopulation (mkCivilization m2 n2 lb2 ub2 f2 g2 u2).1
              (mkCivilization m2 n2 lb2 ub2 f2 g2 u2).2)).assignments ∧
      (stepN (mkCivilization m1 n1 lb1 ub1 f1 g1 u1).1 t
        (initPopulation (mkCivilization m1 n1 lb1 ub1 f1 g1 u1).1
          (mkCivilization m1 n1 lb1 ub1 f1 g1 u1).2)).population.map Ind.vars
        = (stepN (mkCivilization m2 n2 lb2 ub2 f2 g2 u2).1 t
            (initPopulation (mkCivilization m2 n2 lb2 ub2 f2 g2 u2).1
              (mkCivilization m2 n2 lb2 ub2 f2 g2 u2).2)).population.map Ind.vars := by
  subst hm
  subst hn
  subst hlb
  subst hub
  subst hf
  subst hg
  subst hu
  exact ⟨rfl, rfl, rfl⟩

/-- C8 witness: the same concrete construction on both sides, one
step. -/
theorem C8_determinism_witness :
    (stepN (mkCivilization 2 1 [0] [1] (fun _ => 0) (fun _ => []) (fun _ => 0)).1 1
        (initPopulation (mkCivilization 2 1 [0] [1] (fun _ => 0) (fun _ => []) (fun _ => 0)).1
          (mkCivilization 2 1 [0] [1] (fun _ => 0) (fun _ => []) (fun _ => 0)).2)).hubs
      = (stepN (mkCivilization 2 1 [0] [1] (fun _ => 0) (fun _ => []) (fun _ => 0)).1 1
          (initPopulation (mkCivilization 2 1 [0] [1] (fun _ => 0) (fun _ => [])
            (fun _ => 0)).1
            (mkCivilization 2 1 [0] [1] (fun _ => 0) (fun _ => []) (fun _ => 0)).2)).hubs :=
  (C8_determinism 2 2 1 1 [0] [0] [1] [1] (fun _ => 0) (fun _ => 0) (fun _ => [])
    (fun _ => []) (fun _ => 0) (fun _ => 0) 1 rfl rfl rfl rfl rfl rfl rfl).1

/-! ## The degenerate two-identical-individual run (C7), and a concrete
run used by the counterexamples and witnesses -/

lemma argmaxScan_two (f : Nat → ℝ) (h0 : f 0 = 0) (h1 : f 1 = 0) :
    argmaxScan f 2 = (Int.ofNat 0, 0) := by
  rw [argmaxScan]
  have hr : List.range 2 = [0, 1] := rfl
  rw [hr]
  simp only [List.foldl_cons, List.foldl_nil, h0, h1]
  norm_num

lemma cluster_identical_pair (cfg : Config) (s : CivState) (a b : Ind)
    (hm2 : cfg.m = 2) (hpop : s.population = [a, b]) (hvars : a.vars = b.vars)
    (hu : wfStream cfg.stream) :
    cluster_population cfg s
      = { s with
          hubs := [firstHub cfg s, 0],
          assignments := [0, 0],
          pos := s.pos + 1 } := by
  have hh0 : firstHub cfg s < 2 := by
    rw [← hm2]
    exact intDraw_lt (by omega) (hu s.pos).1 (hu s.pos).2
  have hvget : ∀ i, i < 2 → (s.population.getD i default).vars = a.vars := by
    intro i hi
    match i, hi with
    | 0, _ =>
      rw [hpop]
      exact rfl
    | 1, _ =>
      rw [hpop]
      exact hvars.symm
  have hdist : ∀ i j, i < 2 → j < 2 → distIdx cfg s.population i j = 0 := by
    intro i j hi hj
    rw [distIdx, hvget i hi, hvget j hj]
    exact calculate_distance_self _ _
  have hsec : secondHub cfg s = 0 := by
    rw [secondHub, hm2,
      argmaxScan_two (fun i => distIdx cfg s.population i (firstHub cfg s))
        (hdist 0 (firstHub cfg s) (by norm_num) hh0)
        (hdist 1 (firstHub cfg s) (by norm_num) hh0)]
    rfl
  have hasg : (clusterInit cfg s).assignments = [0, 0] := by
    have he : (clusterInit cfg s).assignments = (List.range cfg.m).map (fun i =>
        if distIdx cfg s.population i (firstHub cfg s)
            ≤ distIdx cfg s.population i (secondHub cfg s) then 0 else 1) := rfl
    rw [he, hm2]
    have hr : List.range 2 = [0, 1] := rfl
    rw [hr]
    simp only [List.map_cons, List.map_nil]
    have hc0 : distIdx cfg s.population 0 (firstHub cfg s)
        ≤ distIdx cfg s.population 0 (secondHub cfg s) := by
      rw [hsec, hdist 0 (firstHub cfg s) (by norm_num) hh0,
        hdist 0 0 (by norm_num) (by norm_num)]
    have hc1 : distIdx cfg s.population 1 (firstHub cfg s)
        ≤ distIdx cfg s.population 1 (secondHub cfg s) := by
      rw [hsec, hdist 1 (firstHub cfg s) (by norm_num) hh0,
        hdist 1 0 (by norm_num) (by norm_num)]
    rw [if_pos hc0, if_pos hc1]
  have hhubs : (clusterInit cfg s).hubs = [firstHub cfg s, 0] := by
    have he : (clusterInit cfg s).hubs = [firstHub cfg s, secondHub cfg s] := rfl
    rw [he, hsec]
  have htot : totalHubDist cfg s.population [firstHub cfg s, 0] = 0 := by
    rw [totalHubDist, totalHubDist, totalHubDist]
    simp [hdist (firstHub cfg s) 0 hh0 (by norm_num)]
  have hD : thresholdD cfg s.population [firstHub cfg s, 0] = 0 := by
    rw [thresholdD, if_pos (by norm_num), htot]
    norm_num
  have hfar : farthest cfg s.population [firstHub cfg s, 0] [0, 0] = (Int.ofNat 0, 0) := by
    rw [farthest, hm2]
    exact argmaxScan_two
      (fun i => distIdx cfg s.population i
        (([firstHub cfg s, 0] : List Nat).getD (([0, 0] : List Nat).getD i 0) 0))
      (hdist 0 (firstHub cfg s) (by norm_num) hh0)
      (hdist 1 (firstHub cfg s) (by norm_num) hh0)
  have hcond : (farthest cfg s.population [firstHub cfg s, 0] [0, 0]).2
      ≤ thresholdD cfg s.population [firstHub cfg s, 0] := by
    rw [hfar, hD]
  have hloop : clusterLoop cfg s.population cfg.m [firstHub cfg s, 0] [0, 0]
      = ([firstHub cfg s, 0], [0, 0], true) := by
    rw [hm2, show (2 : Nat) = 1 + 1 from rfl, clusterLoop, if_pos hcond]
  have hne : s.population.isEmpty = false := by
    rw [hpop]
    rfl
  rw [cluster_population, hne]
  simp only [Bool.false_eq_true, if_false]
  have hpopInit : (clusterInit cfg s).population = s.population := rfl
  rw [hpopInit, hhubs, hasg, hloop]
  exact rfl

/-- C7 (amended): a population of exactly 2 individuals with identical
variable vectors converges clustering with zero extra-hub promotions,
producing exactly 2 hubs; however, the tie rule `d1 ≤ d2 → hub 0`
assigns BOTH individuals to society 0, so the two societies have 2 and
0 members respectively (not one member each). -/
theorem C7_identical_pair (cfg : Config) (s : CivState) (a b : Ind)
    (hm2 : cfg.m = 2) (hpop : s.population = [a, b]) (hvars : a.vars = b.vars)
    (hu : wfStream cfg.stream) :
    (cluster_population cfg s).hubs.length = 2 ∧
      (cluster_population cfg s).assignments = [0, 0] ∧
      societiesOf cfg.m (cluster_population cfg s).hubs.length
        (cluster_population cfg s).assignments = [[0, 1], []] := by
  rw [cluster_identical_pair cfg s a b hm2 hpop hvars hu]
  refine ⟨rfl, rfl, ?_⟩
  rw [hm2]
  exact rfl

lemma wf0 : wfStream cfg0.stream := by
  intro k
  exact ⟨le_refl 0, by norm_num [cfg0]⟩

/-- C7 witness: the two-identical-individual state `s0` under `cfg0`. -/
theorem C7_identical_pair_witness :
    (cluster_population cfg0 s0).hubs.length = 2 ∧
      (cluster_population cfg0 s0).assignments = [0, 0] ∧
      societiesOf cfg0.m (cluster_population cfg0 s0).hubs.length
        (cluster_population cfg0 s0).assignments = [[0, 1], []] :=
  C7_identical_pair cfg0 s0 ind0 ind0 rfl rfl rfl wf0

/-- C7 counterexample: on the concrete identical pair the two societies
hold 2 and 0 members — it is false that each of the two societies has
exactly one member. -/
theorem C7_counterexample :
    societiesOf cfg0.m (cluster_population cfg0 s0).hubs.length
        (cluster_population cfg0 s0).assignments = [[0, 1], []] ∧
      ¬ (∀ soc ∈ societiesOf cfg0.m (cluster_population cfg0 s0).hubs.length
          (cluster_population cfg0 s0).assignments, soc.length = 1) := by
  have hc := cluster_identical_pair cfg0 s0 ind0 ind0 rfl rfl rfl wf0
  have hsoc : societiesOf cfg0.m (cluster_population cfg0 s0).hubs.length
      (cluster_population cfg0 s0).assignments = [[0, 1], []] := by
    rw [hc]
    exact rfl
  refine ⟨hsoc, ?_⟩
  intro h
  have h2 := h [] (by rw [hsoc]; simp)
  simp at h2

/-- C2 witness: the concrete two-individual state `s0` under `cfg0`. -/
theorem C2_cluster_population_terminates_witness :
    (clusterLoop cfg0 s0.population cfg0.m (clusterInit cfg0 s0).hubs
        (clusterInit cfg0 s0).assignments).2.2 = true ∧
      2 ≤ (cluster_population cfg0 s0).hubs.length ∧
      (cluster_population cfg0 s0).assignments.length = cfg0.m ∧
      ∀ i, i < cfg0.m →
        (cluster_population cfg0 s0).assignments.getD i 0
          < (cluster_population cfg0 s0).hubs.length :=
  C2_cluster_population_terminates cfg0 s0 (by norm_num [cfg0])
    (by simp [s0]) wf0

/-! ## The concrete step at `cfg0`/`s0`, stage by stage (for C5) -/

lemma firstHub_cfg0 : firstHub cfg0 s0 = 0 := by
  rw [firstHub, intDraw]
  norm_num [cfg0, s0]

lemma cluster_cfg0 : cluster_population cfg0 s0 = cs1 := by
  rw [cluster_identical_pair cfg0 s0 ind0 ind0 rfl rfl rfl wf0, firstHub_cfg0]
  exact rfl

lemma selectLeaders_two (obj : Nat → ℝ) (rank : Nat → Nat)
    (ho0 : obj 0 = 0) (ho1 : obj 1 = 0) (hr0 : rank 0 = 1) (hr1 : rank 1 = 1) :
    selectLeaders obj rank [0, 1] = [0, 1] := by
  have hfil : ([0, 1] : List Nat).filter (fun i => rank i == 1) = [0, 1] := by
    simp [List.filter_cons, hr0, hr1]
  have hmap : ([0, 1] : List Nat).map obj = [0, 0] := by
    simp [ho0, ho1]
  simp only [selectLeaders]
  rw [hfil, hmap]
  have hc : ((([0, 1] : List Nat).length : ℝ) * (1 / 2)
      < (([0, 1] : List Nat).length : ℝ)) := by
    norm_num
  rw [if_pos hc]
  have havg : (if 0 < ([0, 1] : List Nat).length
      then ([0, 0] : List ℝ).sum / (([0, 1] : List Nat).length : ℝ) else 0) = 0 := by
    norm_num
  rw [havg]
  have hfil2 : ([0, 1] : List Nat).filter (fun i => decide (obj i ≤ 0)) = [0, 1] := by
    simp [List.filter_cons, ho0, ho1]
  rw [hfil2]
  simp

lemma rank_society_ind0 : rank_society [ind0, ind0] [0, 1] = [ind0r, ind0r] :=
  rfl

lemma rank_society_ind0r : rank_society [ind0r, ind0r] [0, 1] = [ind0r, ind0r] :=
  rfl

lemma select_ind0r :
    selectLeaders (fun i => ((([ind0r, ind0r] : List Ind).getD i default).objective_value))
      (fun i => ((([ind0r, ind0r] : List Ind).getD i default).rank)) [0, 1] = [0, 1] :=
  selectLeaders_two _ _ rfl rfl rfl rfl

lemma leadersFold_cfg0 :
    leadersFold [[0, 1], []] [ind0, ind0] = ([ind0r, ind0r], [[0, 1], []]) := by
  rw [leadersFold]
  simp only [List.foldl_cons, List.foldl_nil, List.isEmpty_cons, List.isEmpty_nil,
    Bool.false_eq_true, if_false, if_true]
  rw [rank_society_ind0, select_ind0r]
  simp

lemma identify_leaders_cfg0 : identify_leaders cfg0 cs1 = cs2 := by
  have h1 : identify_leaders cfg0 cs1
      = { population := (leadersFold [[0, 1], []] [ind0, ind0]).1,
          hubs := [0, 0], assignments := [0, 0],
          society_leaders := (leadersFold [[0, 1], []] [ind0, ind0]).2,
          global_society := [], super_leaders := [], pos := 1, evals := 2 } := rfl
  rw [h1, leadersFold_cfg0]
  exact rfl

lemma move_members_cfg0 : move_society_members cfg0 cs2 = cs2 :=
  rfl

lemma form_global_cfg0 : form_global_society cs2 = cs3 :=
  rfl

lemma identify_super_cfg0 : identify_super_leaders cs3 = cs4 := by
  rw [identify_super_leaders]
  rw [show cs3.global_society.isEmpty = false from rfl]
  simp only [Bool.false_eq_true, if_false]
  rw [show rank_society cs3.population cs3.global_society = [ind0r, ind0r] from rfl]
  rw [show cs3.global_society = [0, 1] from rfl]
  rw [select_ind0r]
  exact rfl

lemma move_global_cfg0 : move_global_leaders cfg0 cs4 = cs4 :=
  rfl

lemma stepCiv_cfg0 : stepCiv cfg0 s0 = cs4 := by
  rw [stepCiv, cluster_cfg0, identify_leaders_cfg0, move_members_cfg0, form_global_cfg0,
    identify_super_cfg0, move_global_cfg0]

lemma identify_super_claim_cfg0 : identify_super_leaders_claim cfg0 cs3 = cs4c := by
  rw [identify_super_leaders_claim]
  rw [show cs3.global_society.isEmpty = false from rfl]
  simp only [Bool.false_eq_true, if_false]
  rw [show rank_society (evalPool cfg0 cs3.global_society cs3.population)
    cs3.global_society = [ind0r, ind0r] from rfl]
  rw [show cs3.global_society = [0, 1] from rfl]
  rw [select_ind0r]
  exact rfl

lemma move_global_claim_cfg0 : move_global_leaders cfg0 cs4c = cs4c :=
  rfl

lemma stepClaim_cfg0 : stepClaim cfg0 s0 = cs4c := by
  rw [stepClaim, cluster_cfg0, identify_leaders_cfg0, move_members_cfg0, form_global_cfg0,
    identify_super_claim_cfg0, move_global_claim_cfg0]

/-- C5 counterexample: on the concrete two-individual run, the code's
step invokes the injected objective functor exactly twice (once per
individual, in `identify_leaders`), whereas the claimed sequence — with
the functors re-invoked for the global pool before the global ranking —
would invoke it four times; the resulting states differ, so the claimed
re-invocation does not happen. -/
theorem C5_counterexample :
    (stepCiv cfg0 s0).evals = 2 ∧ (stepClaim cfg0 s0).evals = 4 ∧
      stepCiv cfg0 s0 ≠ stepClaim cfg0 s0 := by
  rw [stepCiv_cfg0, stepClaim_cfg0]
  refine ⟨rfl, rfl, ?_⟩
  intro h
  exact absurd (congrArg CivState.evals h) (by decide)

end SocioCiv
